import Mathlib

/-!
Verification of the bonnetjes document-registry pipeline.

This file shallowly embeds the registry, cache, filename-policy, path-allocator,
merge and scan logic of the repository and proves (or refutes) the frozen claims
about them.  Each definition is translated from the TypeScript source; JavaScript
string idioms (substring / lastIndexOf / split().pop() / trim / regex replaces)
are modelled by explicit functions on the underlying character lists.
-/

set_option maxRecDepth 4000

namespace Bonnetjes

/-! ## JavaScript string primitives -/

/-- Model of the JS idiom `s.split(c).pop() || ''`: the chunk of `s` after the
last occurrence of `c` (the whole string when `c` does not occur). -/
def jsAfterLast (c : Char) (s : String) : String :=
  ⟨(s.data.reverse.takeWhile (fun x => x ≠ c)).reverse⟩

/-- Model of the JS idiom `s.substring(0, s.lastIndexOf(c))`: the chunk of `s`
strictly before the last occurrence of `c` (empty when `c` does not occur,
because `substring(0, -1)` clamps to the empty string). -/
def jsBeforeLast (c : Char) (s : String) : String :=
  ⟨((s.data.reverse.dropWhile (fun x => x ≠ c)).drop 1).reverse⟩

/-- Characters the `cleanField` regex `/[<>:"\/\\|?*.,]/g` replaces. -/
def illegalChar (c : Char) : Bool :=
  c = '<' || c = '>' || c = ':' || c = '\"' || c = '/' || c = '\\' ||
  c = '|' || c = '?' || c = '*' || c = '.' || c = ','

/-- ASCII portion of the JS `\s` character class (space, tab, LF, CR, VT, FF). -/
def jsWhitespaceChar (c : Char) : Bool :=
  c = ' ' || c = '\t' || c = '\n' || c = '\r' || c = '\x0b' || c = '\x0c'

/-- Replace every maximal run of characters satisfying `p` by a single
underscore (models `replace(/X+/g, '_')`).  The flag records whether the
previous character was part of a run. -/
def collapseRunsAux (p : Char → Bool) : Bool → List Char → List Char
  | _, [] => []
  | inRun, c :: cs =>
    if p c then
      if inRun then collapseRunsAux p true cs
      else '_' :: collapseRunsAux p true cs
    else c :: collapseRunsAux p false cs

def collapseRuns (p : Char → Bool) (l : List Char) : List Char :=
  collapseRunsAux p false l

/-- Model of `replace(/^_+|_+$/g, '')`. -/
def trimUnderscores (l : List Char) : List Char :=
  ((l.dropWhile (fun c => c = '_')).reverse.dropWhile (fun c => c = '_')).reverse

/-- Model of JS `String.prototype.trim()` (ASCII whitespace). -/
def jsTrim (s : String) : String :=
  ⟨((s.data.dropWhile jsWhitespaceChar).reverse.dropWhile jsWhitespaceChar).reverse⟩

/-- Model of JS `startsWith`, kept kernel-computable by working on the
character lists. -/
def jsStartsWith (s pre : String) : Bool :=
  pre.data.isPrefixOf s.data

/-- Model of the JS `a || b` default idiom on optional strings: the empty
string and a missing value are both falsy. -/
def jsOr (o : Option String) (dflt : String) : String :=
  match o with
  | none => dflt
  | some s => if s = "" then dflt else s

/-! ## Data model (from the TS types used by the pipeline) -/

/-- Extracted document fields.  The source stores `data` as a duck-typed union
(`InvoiceData | GenericDocumentData | MovieCoverData`); dispatch is on which
key is present (`"invoice_date" in data`, ...), so the embedding keeps every
field optional and models key presence by `isSome`. -/
structure ExtractedData where
  invoice_date : Option String := none
  company_name : Option String := none
  description : Option String := none
  invoice_amount : Option String := none
  invoice_currency : Option String := none
  movie_title : Option String := none
  season : Option Nat := none
  disc_number : Option String := none
  media_format : Option String := none
  duration : Option String := none
  document_date : Option String := none
  document_category : Option String := none
  source : Option String := none
  confidence : Option String := none
  extraction_status : Option String := none
  deriving Repr, DecidableEq

/-- A registry record (TS `FileInfo`).  Enum-like fields keep their TS string
values: `status ∈ {new, analyzed, bad}`, `type ∈ {pdf, image}`,
`documentType ∈ {invoice, generic, movie_cover}`. -/
structure FileInfo where
  id : String
  originalPath : String
  currentPath : String
  timestamp : String
  status : String
  type : String
  documentType : String
  data : Option ExtractedData := none
  error : Option String := none
  lastModified : Option String := none
  deriving Repr, DecidableEq

/-- Registry snapshot (TS `State`). -/
structure State where
  knownFiles : List FileInfo
  lastRun : String
  deriving Repr, DecidableEq

/-! ## Filename Policy Engine: `generateFileName` (src lib/generic-tools) -/

/-- Model of the inner `cleanField` helper: replace illegal filename
characters with `_`, collapse whitespace runs to `_`, collapse `_` runs,
strip leading/trailing `_`. -/
def cleanField (s : String) : String :=
  ⟨trimUnderscores (collapseRuns (fun c => c = '_')
      (collapseRuns jsWhitespaceChar (s.data.map (fun c => if illegalChar c then '_' else c))))⟩

/-- Filter predicate `part => part && part.trim() !== ''` used on filename parts. -/
def truthyPart (part : String) : Bool :=
  part != "" && jsTrim part != ""

/-- Model of `generateFileName` from the source: builds a proposed path from
the extracted fields, the document kind implied by which field is present,
and the original extension; returns the unchanged `currentPath` whenever no
acceptable filename can be formed.  The function is pure: it never consults
the filesystem. -/
def generateFileName (record : FileInfo) : String :=
  match record.data with
  | none => record.currentPath
  | some data =>
    let filename := jsAfterLast '/' record.currentPath
    let ext := jsAfterLast '.' filename
    let dirPath := jsBeforeLast '/' record.currentPath
    let newFilename? : Option String :=
      if data.invoice_date.isSome then
        let parts := [jsOr data.invoice_date "",
                      cleanField (jsOr data.company_name ""),
                      cleanField (jsOr data.description ""),
                      (jsOr data.invoice_currency "EUR") ++ cleanField (jsOr data.invoice_amount "")]
        let parts := parts.filter truthyPart
        if parts.isEmpty then none
        else some (String.intercalate "-" parts ++ "." ++ ext)
      else if data.movie_title.isSome then
        let cleanTitle := cleanField (jsOr data.movie_title "")
        if cleanTitle = "" then none
        else
          let cleanSeason := match data.season with
            | some n => if n ≠ 0 then "S" ++ toString n else ""
            | none => ""
          let parts := ["cover", cleanTitle, cleanSeason,
                        cleanField (jsOr data.disc_number ""),
                        cleanField (jsOr data.media_format ""),
                        cleanField (jsOr data.duration "")]
          some (String.intercalate "-" (parts.filter truthyPart) ++ "." ++ ext)
      else if data.source.isSome then
        let genericParts := [cleanField (jsOr data.document_date ""),
                             cleanField (jsOr data.document_category ""),
                             cleanField (jsOr data.source ""),
                             cleanField (jsOr data.description "")]
        let genericParts := genericParts.filter truthyPart
        if genericParts.isEmpty then none
        else some (String.intercalate "_" genericParts ++ "." ++ ext)
      else none
    match newFilename? with
    | none => record.currentPath
    | some nf =>
      let finalFilename := jsTrim nf
      if finalFilename = "" || finalFilename = "." ++ ext || jsStartsWith finalFilename "." then
        record.currentPath
      else dirPath ++ "/" ++ finalFilename

/-! ## Conflict-Safe Path Allocator: `generateUniquePath` (rename-files-batch route) -/

/-- Availability check from the source: a path is available when it is neither
reserved by the current batch (`usedPaths.has(path)`) nor present on disk
(`fs.access` succeeding means taken). -/
def isPathAvailable (disk : String → Bool) (used : List String) (p : String) : Bool :=
  !(used.contains p) && !(disk p)

/-- The suffixed candidate `dirPath/name_i.ext` built inside the allocation loop. -/
def suffixCandidate (dirPath nameNoExt ext : String) (i : Nat) : String :=
  dirPath ++ "/" ++ nameNoExt ++ "_" ++ toString i ++ "." ++ ext

/-- Model of the source's `do { ... } while (index < 1000)` loop: starting at
index `i`, return the first available suffixed candidate; when the index cap
is reached the loop exits and the *last tried* candidate is returned even if
it was unavailable.  `fuel` makes the recursion structural; the top-level
entry supplies enough fuel for the full index range. -/
def allocLoop (avail : String → Bool) (dirPath nameNoExt ext : String) : Nat → Nat → String
  | i, 0 => suffixCandidate dirPath nameNoExt ext i
  | i, fuel + 1 =>
    let p := suffixCandidate dirPath nameNoExt ext i
    if avail p then p
    else if i + 1 < 1000 then allocLoop avail dirPath nameNoExt ext (i + 1) fuel
    else p

/-- Model of `generateUniquePath(basePath, usedPaths)`: test the base path,
else split it into directory, stem and extension and search `_1`, `_2`, ...
up to the iteration cap. -/
def generateUniquePath (disk : String → Bool) (used : List String) (basePath : String) : String :=
  let avail := isPathAvailable disk used
  if avail basePath then basePath
  else
    let dirPath := jsBeforeLast '/' basePath
    let filename := jsAfterLast '/' basePath
    let ext := jsAfterLast '.' filename
    let nameNoExt := jsBeforeLast '.' filename
    allocLoop avail dirPath nameNoExt ext 1 999

/-- State of one batch-rename request: the (functional) set of paths on disk,
the per-batch reserved set `usedPaths`, and the allocations made so far. -/
structure BatchState where
  disk : String → Bool
  used : List String
  allocated : List (String × String)

/-- One iteration of the batch-rename loop for a record whose current path is
`oldPath` and whose proposed path is `base`: allocate a unique path, rename
the file on disk (the old path disappears, the new one appears), reserve the
new path. -/
def batchStep (st : BatchState) (oldPath base : String) : BatchState :=
  let newPath := generateUniquePath st.disk st.used base
  { disk := fun q => if q = newPath then true else if q = oldPath then false else st.disk q,
    used := newPath :: st.used,
    allocated := st.allocated ++ [(oldPath, newPath)] }

/-- Run a whole batch of (current path, proposed path) items. -/
def runBatch (st : BatchState) : List (String × String) → BatchState
  | [] => st
  | item :: rest => runBatch (batchStep st item.1 item.2) rest

/-- Verification harness over the same allocator: run the batch but record
`none` as soon as an allocation returns a path that was *not* available
(reserved or on disk) at its allocation time — i.e. as soon as the iteration
cap was exhausted.  A `some` result certifies that every allocation in the
batch got a genuinely free path. -/
def runBatchChecked (st : BatchState) : List (String × String) → Option BatchState
  | [] => some st
  | item :: rest =>
    let newPath := generateUniquePath st.disk st.used item.2
    if isPathAvailable st.disk st.used newPath then
      runBatchChecked (batchStep st item.1 item.2) rest
    else none

/-! ## Analysis Cache: `CacheService` (src lib/cacheService.ts)

The SHA-256 content hash produced by node crypto is modelled by an abstract
hash function over the file's bytes; the filesystem is a partial map from
paths to byte lists (`none` = unreadable, which makes `calculateFileHash`
throw in the source). -/

/-- A cache entry (TS `CachedAnalysis`). -/
structure CachedAnalysis where
  fileHash : String
  originalPath : String
  analysisResult : ExtractedData
  documentType : String
  timestamp : String
  confidence : Option String := none
  extractionStatus : Option String := none
  deriving Repr, DecidableEq

/-- Environment of the cache service: file contents by path and the content
hash function (crypto sha256 in the source). -/
structure CacheEnv where
  disk : String → Option (List Nat)
  hashFn : List Nat → String

/-- Model of `calculateFileHash`: read the file's bytes and hash them;
`none` models the exception thrown when the read fails. -/
def calculateFileHash (env : CacheEnv) (filePath : String) : Option String :=
  (env.disk filePath).map env.hashFn

/-- Model of `getCachedResult`: hash the file at `filePath` and look the hash
up in the entry list; a hashing error is caught and reported as a miss. -/
def getCachedResult (env : CacheEnv) (cache : List CachedAnalysis) (filePath : String) :
    Option CachedAnalysis :=
  match calculateFileHash env filePath with
  | none => none
  | some h => cache.find? (fun r => r.fileHash == h)

/-- Model of `cacheResult`: hash the file, remove every existing entry with
the same hash, then append the new entry.  `none` models the exception
propagated when hashing fails (nothing is mutated in that case). -/
def cacheResult (env : CacheEnv) (cache : List CachedAnalysis) (filePath : String)
    (analysisResult : ExtractedData) (documentType now : String) :
    Option (List CachedAnalysis) :=
  (calculateFileHash env filePath).map (fun h =>
    cache.filter (fun r => r.fileHash != h) ++
      [{ fileHash := h, originalPath := filePath, analysisResult, documentType,
         timestamp := now, confidence := analysisResult.confidence,
         extractionStatus := analysisResult.extraction_status }])

/-- Model of `removeCachedResult`: drop the entries with the file's hash; a
hashing error is caught and leaves the cache unchanged. -/
def removeCachedResult (env : CacheEnv) (cache : List CachedAnalysis) (filePath : String) :
    List CachedAnalysis :=
  match calculateFileHash env filePath with
  | none => cache
  | some h => cache.filter (fun r => r.fileHash != h)

/-- Cache states reachable through the service's operations, starting from
the empty cache that a fresh or unreadable store yields (`loadCache` of a
snapshot previously saved by the service re-enters a reachable state, and
`clearCache` returns to the empty one; `getCachedResult` does not mutate). -/
inductive CacheReachable (env : CacheEnv) : List CachedAnalysis → Prop
  | init : CacheReachable env []
  | put {c p r d t c2} : CacheReachable env c →
      cacheResult env c p r d t = some c2 → CacheReachable env c2
  | remove {c p} : CacheReachable env c →
      CacheReachable env (removeCachedResult env c p)

/-- At most one entry per content hash. -/
def hashUnique (cache : List CachedAnalysis) : Prop :=
  cache.Pairwise (fun a b => a.fileHash ≠ b.fileHash)

/-! ## A JSON value type and parser

`StateService.loadState` drives its corruption recovery off `JSON.parse`,
including the character position reported in the parse error.  The parser
below models `JSON.parse` on the JSON subset the snapshot files use
(objects, arrays, strings with the common escapes, integers, booleans,
null); an error carries the input position at which parsing failed, as the
V8 error message reports it. -/

inductive Json where
  | null
  | bool (b : Bool)
  | num (n : Int)
  | str (s : String)
  | arr (elems : List Json)
  | obj (fields : List (String × Json))

/-- Consume leading JSON whitespace, tracking the position. -/
def skipWs : List Char → Nat → List Char × Nat
  | [], pos => ([], pos)
  | c :: cs, pos =>
    if c = ' ' || c = '\t' || c = '\n' || c = '\r' then skipWs cs (pos + 1)
    else (c :: cs, pos)

/-- JSON string escapes. -/
def jsonEscChar (c : Char) : Option Char :=
  if c = '\"' then some '\"'
  else if c = '\\' then some '\\'
  else if c = '/' then some '/'
  else if c = 'b' then some '\x08'
  else if c = 'f' then some '\x0c'
  else if c = 'n' then some '\n'
  else if c = 'r' then some '\r'
  else if c = 't' then some '\t'
  else none

/-- Parse the body of a JSON string (the opening quote already consumed). -/
def parseStrBody : Nat → List Char → Nat → List Char → Except Nat (String × List Char × Nat)
  | 0, _, pos, _ => .error pos
  | _ + 1, [], pos, _ => .error pos
  | fuel + 1, c :: cs, pos, acc =>
    if c = '\"' then .ok (⟨acc.reverse⟩, cs, pos + 1)
    else if c = '\\' then
      match cs with
      | [] => .error (pos + 1)
      | e :: cs2 =>
        match jsonEscChar e with
        | some ec => parseStrBody fuel cs2 (pos + 2) (ec :: acc)
        | none => .error (pos + 1)
    else parseStrBody fuel cs (pos + 1) (c :: acc)

/-- Parse a nonempty digit run into a natural number. -/
def parseDigits : List Char → Nat → Nat → Option (Nat × List Char × Nat)
  | [], _, _ => none
  | c :: cs, pos, acc =>
    if c.isDigit then
      let acc := acc * 10 + (c.toNat - 48)
      match parseDigits cs (pos + 1) acc with
      | some r => some r
      | none => some (acc, cs, pos + 1)
    else none

/-- Tasks of the JSON parsing loop: parse one value, or continue a partially
parsed array / object. -/
inductive PTask where
  | val
  | arrRest (acc : List Json)
  | objRest (acc : List (String × Json))

/-- The JSON parsing loop.  Fuel makes the recursion structural (hence
kernel-computable); the entry point supplies fuel proportional to the input
length, which is always sufficient. -/
def parseAux : Nat → PTask → List Char → Nat → Except Nat (Json × List Char × Nat)
  | 0, _, _, pos => .error pos
  | fuel + 1, .val, input, pos =>
    match skipWs input pos with
    | ([], pos1) => .error pos1
    | (c :: cs, pos1) =>
      if c = '\"' then
        match parseStrBody (cs.length + 1) cs (pos1 + 1) [] with
        | .ok (s, rest, pos2) => .ok (.str s, rest, pos2)
        | .error e => .error e
      else if c = '[' then
        match skipWs cs (pos1 + 1) with
        | (']' :: cs2, pos2) => .ok (.arr [], cs2, pos2 + 1)
        | _ => parseAux fuel (.arrRest []) cs (pos1 + 1)
      else if c = '{' then
        match skipWs cs (pos1 + 1) with
        | ('}' :: cs2, pos2) => .ok (.obj [], cs2, pos2 + 1)
        | _ => parseAux fuel (.objRest []) cs (pos1 + 1)
      else if c = 't' then
        match cs with
        | 'r' :: 'u' :: 'e' :: cs2 => .ok (.bool true, cs2, pos1 + 4)
        | _ => .error pos1
      else if c = 'f' then
        match cs with
        | 'a' :: 'l' :: 's' :: 'e' :: cs2 => .ok (.bool false, cs2, pos1 + 5)
        | _ => .error pos1
      else if c = 'n' then
        match cs with
        | 'u' :: 'l' :: 'l' :: cs2 => .ok (.null, cs2, pos1 + 4)
        | _ => .error pos1
      else if c = '-' then
        match parseDigits cs (pos1 + 1) 0 with
        | some (n, rest, pos2) => .ok (.num (-(n : Int)), rest, pos2)
        | none => .error (pos1 + 1)
      else if c.isDigit then
        match parseDigits (c :: cs) pos1 0 with
        | some (n, rest, pos2) => .ok (.num (n : Int), rest, pos2)
        | none => .error pos1
      else .error pos1
  | fuel + 1, .arrRest acc, input, pos =>
    match parseAux fuel .val input pos with
    | .error e => .error e
    | .ok (v, rest, pos1) =>
      match skipWs rest pos1 with
      | (',' :: cs2, pos2) => parseAux fuel (.arrRest (v :: acc)) cs2 (pos2 + 1)
      | (']' :: cs2, pos2) => .ok (.arr (v :: acc).reverse, cs2, pos2 + 1)
      | (_, pos2) => .error pos2
  | fuel + 1, .objRest acc, input, pos =>
    match skipWs input pos with
    | ('\"' :: cs1, pos1) =>
      match parseStrBody (cs1.length + 1) cs1 (pos1 + 1) [] with
      | .error e => .error e
      | .ok (key, rest1, pos2) =>
        match skipWs rest1 pos2 with
        | (':' :: cs3, pos3) =>
          match parseAux fuel .val cs3 (pos3 + 1) with
          | .error e => .error e
          | .ok (v, rest4, pos4) =>
            match skipWs rest4 pos4 with
            | (',' :: cs5, pos5) => parseAux fuel (.objRest ((key, v) :: acc)) cs5 (pos5 + 1)
            | ('}' :: cs5, pos5) => .ok (.obj ((key, v) :: acc).reverse, cs5, pos5 + 1)
            | (_, pos5) => .error pos5
        | (_, pos3) => .error pos3
    | (_, pos1) => .error pos1

/-- Model of `JSON.parse`: parse one value, require only whitespace after it;
errors carry the failure position. -/
def parseJson (s : String) : Except Nat Json :=
  match parseAux (4 * s.length + 16) .val s.data 0 with
  | .error pos => .error pos
  | .ok (j, rest, pos) =>
    match skipWs rest pos with
    | ([], _) => .ok j
    | (_, pos2) => .error pos2

/-- Look a key up in a JSON object. -/
def jsonField (j : Json) (key : String) : Option Json :=
  match j with
  | .obj fields => (fields.find? (fun kv => kv.1 == key)).map Prod.snd
  | _ => none

/-- The `recoveredState.knownFiles && Array.isArray(recoveredState.knownFiles)`
check of the source, returning the number of recovered records when it
passes. -/
def jsonKnownFilesCount (j : Json) : Option Nat :=
  match jsonField j "knownFiles" with
  | some (.arr xs) => some xs.length
  | _ => none

/-- Position of the last occurrence of `pat` in `l` (JS `lastIndexOf`),
`none` when absent (JS `-1`). -/
def lastIndexOfSubAux (pat : List Char) : List Char → Nat → Option Nat → Option Nat
  | [], _, best => best
  | l@(_ :: cs), i, best =>
    lastIndexOfSubAux pat cs (i + 1) (if pat.isPrefixOf l then some i else best)

def lastIndexOfSub (pat s : String) : Option Nat :=
  lastIndexOfSubAux pat.data s.data 0 none

/-! ## Document Registry: `StateService.loadState` (part_004, the lib variant) -/

/-- Outcome of the three ways a read of the snapshot file can go. -/
inductive ReadResult where
  | enoent
  | failed
  | ok (data : String)

inductive LoadOutcome where
  | loadedOk (j : Json)
  | freshInit
  | recoveredSome (n : Nat)
  | fellBackEmpty
  | readFailed

/-- Observable result of `loadState`: the outcome, the path of the
`.corrupted.<timestamp>` backup when one was written, whether the state was
re-saved, and the log lines emitted (level, message). -/
structure LoadResult where
  outcome : LoadOutcome
  backupWritten : Option String
  savedAfter : Bool
  log : List (String × String)

def statePath : String := "state/state.json"

/-- Model of `StateService.loadState`.  Every branch of the source is total
(all exceptions are caught), so the model is a plain function.  On a JSON
parse error it logs, copies the corrupt file to a timestamp-suffixed backup,
truncates the content at the error position, cuts at the *last occurrence of
the two-character substring* `"\x7d,"` (if any, at index > 0), appends
`"]\x7d"`, and re-parses; if that recovers an object with a `knownFiles`
array the recovered state is adopted and saved, otherwise it falls back to
the empty snapshot.  The V8 parse error is assumed to carry a position (the
`position (\d+)` regex of the source matches), as modern Node reports. -/
def loadStateModel (read : ReadResult) (now : Nat) : LoadResult :=
  match read with
  | .enoent =>
    { outcome := .freshInit, backupWritten := none, savedAfter := true,
      log := [("info", "No state file found, creating new state file")] }
  | .failed =>
    { outcome := .readFailed, backupWritten := none, savedAfter := false,
      log := [("warn", "Error reading state")] }
  | .ok data =>
    match parseJson data with
    | .ok j =>
      { outcome := .loadedOk j, backupWritten := none, savedAfter := false,
        log := [("debug", "State loaded successfully")] }
    | .error pos =>
      let backupPath := statePath ++ ".corrupted." ++ toString now
      let log1 := [("error", "State file is corrupted (JSON parse error)"),
                   ("info", "Backed up corrupted state file to: " ++ backupPath)]
      let fallBack := fun (extraLog : List (String × String)) =>
        { outcome := .fellBackEmpty, backupWritten := some backupPath, savedAfter := true,
          log := log1 ++ extraLog ++
            [("warn", "Starting with empty state due to corruption")] : LoadResult }
      let partialData : String := ⟨data.data.take pos⟩
      match lastIndexOfSub "\x7d," partialData with
      | some i =>
        if i > 0 then
          let validPart : String := ⟨partialData.data.take (i + 1)⟩
          match parseJson (validPart ++ "]\x7d") with
          | .ok r =>
            match jsonKnownFilesCount r with
            | some n =>
              { outcome := .recoveredSome n, backupWritten := some backupPath, savedAfter := true,
                log := log1 ++ [("warn", "Recovered " ++ toString n ++ " files from corrupted state")] }
            | none => fallBack []
          | .error _ => fallBack [("warn", "Failed to recover partial state")]
        else fallBack []
      | none => fallBack []

/-- Modelled from the spec's words (the code under test uses the `"\x7d,"`
heuristic instead): best-effort truncation-recovery "to the last structurally
complete record before the parse error" — re-parse the longest prefix of the
content, closed with `"]\x7d"`, that yields a snapshot with a `knownFiles`
array, i.e. cut exactly at the end of the last structurally complete record.
Returns the number of records recovered, `none` when no prefix works. -/
def specTruncationRecovery (data : String) (pos : Nat) : Option Nat :=
  (List.range (pos + 1)).reverse.findSome? (fun k =>
    match parseJson (⟨data.data.take k⟩ ++ "]\x7d") with
    | .ok r => jsonKnownFilesCount r
    | .error _ => none)

/-! ## Document Registry: `StateService.saveState` (part_004, the lib variant)

The save path touches the filesystem in micro-steps: make a timestamped copy
of the existing snapshot into the backup directory, prune the backup set to
the 3 newest, write the serialized snapshot into `state.json.tmp`
(byte-by-byte: the trace exposes every partially written temp file), then
rename the temp file over the canonical path.  Backup filenames are
`state.backup.<Date.now()>.json`; the source sorts them lexicographically
and all `Date.now()` values have the same digit count, so the sort is
modelled by the numeric order of the timestamps. -/

/-- Snapshot of the relevant filesystem: the canonical `state.json` content,
the `state.json.tmp` content, and the backup set as (timestamp, content)
pairs. -/
structure FsSnap where
  canonical : Option String
  temp : Option String
  backups : List (Nat × String)
  deriving Repr, DecidableEq

/-- Insertion step of a descending (newest-first) sort on timestamps. -/
def insertDescBy (x : Nat × String) : List (Nat × String) → List (Nat × String)
  | [] => [x]
  | y :: ys => if y.1 ≤ x.1 then x :: y :: ys else y :: insertDescBy x ys

/-- Model of `backups.sort().reverse()`: newest first. -/
def sortDescBy (l : List (Nat × String)) : List (Nat × String) :=
  l.foldr insertDescBy []

/-- Model of the pruning step: keep the first 3 of the newest-first list and
unlink the rest (`backups.slice(3)`). -/
def keepNewest3 (l : List (Nat × String)) : List (Nat × String) :=
  (sortDescBy l).take 3

/-- The micro-states of the temp-file write: the temp file successively
holds every prefix of the serialized snapshot. -/
def writeTempStates (fs : FsSnap) (content : String) : List FsSnap :=
  (List.range (content.length + 1)).map
    (fun k => { fs with temp := some ⟨content.data.take k⟩ })

/-- The filesystem state after a completed `saveState` whose serialized
snapshot is `jsonString`. -/
def saveStateResult (fs : FsSnap) (jsonString : String) (now : Nat) : FsSnap :=
  { canonical := some jsonString, temp := none,
    backups := match fs.canonical with
      | some old => keepNewest3 ((now, old) :: fs.backups)
      | none => fs.backups }

/-- The full trace of filesystem states a call to `saveState` passes through,
in order: initial state; (when a snapshot exists) after the backup copy and
after the prune; after each partial write of the temp file; after the final
rename of the temp file over the canonical path. -/
def saveStateTrace (fs : FsSnap) (jsonString : String) (now : Nat) : List FsSnap :=
  match fs.canonical with
  | some old =>
    [fs, { fs with backups := (now, old) :: fs.backups },
     { fs with backups := keepNewest3 ((now, old) :: fs.backups) }] ++
      writeTempStates { fs with backups := keepNewest3 ((now, old) :: fs.backups) } jsonString ++
      [saveStateResult fs jsonString now]
  | none =>
    [fs] ++ writeTempStates fs jsonString ++ [saveStateResult fs jsonString now]

/-! ## Registry lookup / mutation helpers (`StateService`, part_004) -/

/-- Model of `getFileById`. -/
def getFileById (st : State) (id : String) : Option FileInfo :=
  st.knownFiles.find? (fun f => f.id == id)

/-- Model of `removeFileById`. -/
def removeFileById (st : State) (id : String) : State :=
  { st with knownFiles := st.knownFiles.filter (fun f => f.id != id) }

/-- Model of `isFileKnown`. -/
def isFileKnown (st : State) (currentPath : String) : Bool :=
  st.knownFiles.any (fun f => f.currentPath == currentPath)

/-- Replace the record with the given id (the source mutates the record
object held inside `state.knownFiles` in place). -/
def updateFile (st : State) (fi : FileInfo) : State :=
  { st with knownFiles := st.knownFiles.map (fun f => if f.id = fi.id then fi else f) }

/-- Model of `resetBadFiles` (after its internal `loadState`): every record
with status `bad` goes back to `new` with its error cleared and its
`lastModified` stamped; other records are untouched. -/
def resetBadFiles (st : State) (now : String) : State :=
  { st with knownFiles := st.knownFiles.map (fun f =>
      if f.status = "bad" then { f with status := "new", error := none, lastModified := some now }
      else f) }

/-! ## Node path helpers used by the merge route -/

/-- Model of node `path.dirname`. -/
def jsDirname (p : String) : String :=
  if p.data.contains '/' then jsBeforeLast '/' p else "."

/-- Model of node `path.basename`. -/
def jsBasename (p : String) : String :=
  jsAfterLast '/' p

/-- Model of JS `toLowerCase` (ASCII), kept kernel-computable by mapping
over the character list. -/
def jsToLower (s : String) : String :=
  ⟨s.data.map Char.toLower⟩

/-- Index of the last occurrence of a character. -/
def lastIdxOfChar (c : Char) (l : List Char) : Option Nat :=
  lastIndexOfSubAux [c] l 0 none

/-- Model of node `path.extname`: the suffix of the basename from its last
dot, empty for dotless names and for a leading-dot-only name. -/
def jsExtname (p : String) : String :=
  let base := (jsBasename p).data
  match lastIdxOfChar '.' base with
  | some i => if i > 0 then ⟨base.drop i⟩ else ""
  | none => ""

/-- Model of node `path.basename(p, ext)`: the basename with the suffix
`ext` stripped when present. -/
def jsBasenameDrop (p ext : String) : String :=
  let base := (jsBasename p).data
  if ext.data ≠ [] ∧ ext.data.isSuffixOf base then ⟨base.take (base.length - ext.length)⟩
  else ⟨base⟩

/-- Model of node `path.join(dir, name)` for the non-degenerate directories
the merge route produces. -/
def jsJoin (dir name : String) : String :=
  dir ++ "/" ++ name

/-! ## Merge Engine: POST /api/merge-files (src app/api/merge-files/route.ts) -/

/-- Persistent vs in-memory view of the registry held by the route's
`StateService` instance. -/
structure ServiceState where
  mem : State
  persisted : State

/-- Filesystem as the merge route sees it: which paths exist, and each
path's (atime, mtime) pair for the timestamp-preservation step. -/
structure MergeFs where
  exists_ : String → Bool
  times : String → Option (Nat × Nat)

inductive MergeResponse where
  | badRequest (msg : String)
  | notFound (msg : String)
  | serverError (msg : String)
  | okMerged (mergedPath : String) (mergedFileResp : FileInfo) (deletedPaths : List String)

structure MergeOutcome where
  response : MergeResponse
  svc : ServiceState
  fs : MergeFs

/-- Model of `mergeFilesToPdf`: validate every source extension, derive the
merged path `dir/base.pdf` from the output path, write the merged PDF, and
copy the first source's timestamps onto it (best effort).  `none` models the
`Unsupported image format` exception. -/
def mergeFilesToPdf (fs : MergeFs) (filePaths : List String) (outputFilePath : String) :
    Option (String × MergeFs) :=
  let okExt := fun p => let e := jsToLower (jsExtname p)
    e = ".jpg" || e = ".jpeg" || e = ".png"
  if filePaths.all okExt then
    let outputDir := jsDirname outputFilePath
    let outputBase := jsBasenameDrop outputFilePath (jsExtname outputFilePath)
    let mergedPdfPath := jsJoin outputDir (outputBase ++ ".pdf")
    let fs1 : MergeFs :=
      { exists_ := fun q => if q = mergedPdfPath then true else fs.exists_ q,
        times := fun q =>
          if q = mergedPdfPath then
            match filePaths.head? with
            | some p0 =>
              match fs.times p0 with
              | some t => some t
              | none => fs.times q  -- fs.stat failed: warn and keep going
            | none => fs.times q
          else fs.times q }
    some (mergedPdfPath, fs1)
  else none

/-- The `_delete_` retirement path of a source file. -/
def retirePath (p : String) : String :=
  let fileDir := jsDirname p
  let fileExt := jsExtname p
  let fileBase := jsBasenameDrop p fileExt
  jsJoin fileDir ("_delete_" ++ fileBase ++ fileExt)

/-- Model of the merge route's POST handler.  Mirrors the source exactly,
including the sequence of state operations after a successful PDF write:
`removeFileById` for every source and an unsaved `createFileInfo` mutate
only the in-memory state, then `loadState()` re-reads the persisted
snapshot (discarding those mutations) before `saveState()` writes it back. -/
def mergeFilesPost (svc : ServiceState) (fs : MergeFs) (fileIds : List String)
    (mergedFileId now : String) : MergeOutcome :=
  if fileIds.length < 2 then
    { response := .badRequest "Missing or invalid fileIds parameter. Must be an array with at least 2 file IDs.",
      svc, fs }
  else
    let files := (fileIds.map (getFileById svc.mem)).filterMap id
    if files.length ≠ fileIds.length then
      { response := .notFound "One or more files not found", svc, fs }
    else if files.any (fun f => f.type != "image") then
      { response := .badRequest "All files must be image files. Non-image files found.", svc, fs }
    else if files.any (fun f => !(fs.exists_ f.currentPath)) then
      { response := .notFound "One or more files do not exist on disk", svc, fs }
    else
      let filePaths := files.map (fun f => f.currentPath)
      match mergeFilesToPdf fs filePaths ((files.head?.map (fun f => f.currentPath)).getD "") with
      | none => { response := .serverError "Unsupported image format", svc, fs }
      | some (mergedPdfPath, fs1) =>
        -- rename every source to its _delete_ path
        let fs2 : MergeFs :=
          files.foldl (fun acc f =>
            { acc with exists_ := fun q =>
                if q = retirePath f.currentPath then true
                else if q = f.currentPath then false
                else acc.exists_ q }) fs1
        let deletePaths := files.map (fun f => retirePath f.currentPath)
        let mergedFile : FileInfo :=
          { id := mergedFileId, originalPath := mergedPdfPath, currentPath := mergedPdfPath,
            timestamp := now, status := "new", type := "pdf", documentType := "generic" }
        -- remove the sources from the in-memory state
        let mem1 := fileIds.foldl removeFileById svc.mem
        -- createFileInfo(mergedFile, false): throws if the path is known,
        -- else pushes without saving
        if isFileKnown mem1 mergedPdfPath then
          { response := .serverError ("File already known: " ++ mergedPdfPath),
            svc := { svc with mem := mem1 }, fs := fs2 }
        else
          let mem2 := { mem1 with knownFiles := mem1.knownFiles ++
            [{ mergedFile with lastModified := some now }] }
          -- loadState(): the in-memory state is replaced by the persisted one
          let mem3 := svc.persisted
          let savedMergedFile := getFileById mem3 mergedFileId
          -- saveState(): the persisted state is overwritten with mem3
          { response := .okMerged mergedPdfPath (savedMergedFile.getD mergedFile) deletePaths,
            svc := { mem := mem3, persisted := mem3 }, fs := fs2 }

/-! ## Pipeline Orchestrator: POST /api/analyze-batch (src app/api/analyze-batch/route.ts) -/

/-- Environment of one analyze-batch request: the cache's disk/hash view,
the external extraction collaborator (`processFile`; `none` models both a
null result and a thrown extraction error), and the clock. -/
structure AnalyzeEnv where
  cacheEnv : CacheEnv
  processFile : FileInfo → Option (ExtractedData × String)
  now : String

/-- Per-item entry of the `results` array. -/
structure ItemRes where
  id : String
  success : Bool
  error : Option String := none
  usedCache : Bool := false
  deriving Repr, DecidableEq

/-- The `switch (processResult.documentType)` conversion (default: invoice). -/
def toDocumentType (s : String) : String :=
  if s = "invoice" then "invoice"
  else if s = "generic" then "generic"
  else if s = "movie_cover" then "movie_cover"
  else "invoice"

/-- One iteration of the analyze-batch loop (forceReanalyze = false): skip
unknown ids and records already marked bad; adopt a cached result on a cache
hit; otherwise call extraction, cache a success, and mark the record
analyzed (clearing any previous error) or bad (recording the error). -/
def analyzeOne (env : AnalyzeEnv) (reg : State) (cache : List CachedAnalysis) (id : String) :
    State × List CachedAnalysis × ItemRes :=
  match getFileById reg id with
  | none => (reg, cache, { id, success := false, error := some "File not found" })
  | some fi =>
    if fi.status = "bad" then
      (reg, cache,
       { id, success := false, error := some "File has been marked as bad after failed analysis" })
    else
      match getCachedResult env.cacheEnv cache fi.currentPath with
      | some ca =>
        let fi2 := { fi with data := some ca.analysisResult, documentType := ca.documentType,
                             status := "analyzed", error := none, lastModified := some env.now }
        (updateFile reg fi2, cache, { id, success := true, usedCache := true })
      | none =>
        match env.processFile fi with
        | some (d, dt) =>
          let dt2 := toDocumentType dt
          match cacheResult env.cacheEnv cache fi.currentPath d dt2 env.now with
          | some cache2 =>
            let fi2 := { fi with data := some d, documentType := dt2,
                                 status := "analyzed", error := none, lastModified := some env.now }
            (updateFile reg fi2, cache2, { id, success := true })
          | none =>
            -- cacheResult threw (file unreadable); the outer catch marks the record bad
            let fi2 := { fi with status := "bad", error := some "Error analyzing file",
                                 lastModified := some env.now }
            (updateFile reg fi2, cache, { id, success := false, error := some "Error analyzing file" })
        | none =>
          let fi2 := { fi with status := "bad", error := some "Failed to analyze file",
                               lastModified := some env.now }
          (updateFile reg fi2, cache,
           { id, success := false, error := some "Failed to analyze file" })

/-- The whole batch loop over the requested ids. -/
def analyzeBatch (env : AnalyzeEnv) (reg : State) (cache : List CachedAnalysis) :
    List String → State × List CachedAnalysis × List ItemRes
  | [] => (reg, cache, [])
  | id :: ids =>
    let (reg1, cache1, res) := analyzeOne env reg cache id
    let (reg2, cache2, ress) := analyzeBatch env reg1 cache1 ids
    (reg2, cache2, res :: ress)

/-! ## File discovery: `FileService.scanFolder` and POST /api/scan -/

/-- A directory tree as `fs.readdir(withFileTypes)` exposes it. -/
inductive DirEntry where
  | file (name : String)
  | dir (name : String) (entries : List DirEntry)

/-- The fixed extension allowlist. -/
def supportedExt (e : String) : Bool :=
  e = ".pdf" || e = ".jpg" || e = ".jpeg" || e = ".png"

/-- Model of `FileService.scanFolder`: walk the tree depth-first, creating a
`FileInfo` for every file whose lowercased extension is supported, with
`status = new`, `originalPath = currentPath = <folder>/<name>`, the
`pdf`/`image` kind from the extension, and `documentType = invoice` for
every discovered file.  Ids come from the injected uuid supply; `fuel`
bounds the recursion structurally (any value large enough for the tree
gives the source's behavior). -/
def scanFolder (idSupply : Nat → String) (now : String) :
    Nat → String → List DirEntry → Nat → List FileInfo × Nat
  | 0, _, _, k => ([], k)
  | _ + 1, _, [], k => ([], k)
  | fuel + 1, folder, e :: es, k =>
    match e with
    | .dir name sub =>
      let (fs1, k1) := scanFolder idSupply now fuel (folder ++ "/" ++ name) sub k
      let (fs2, k2) := scanFolder idSupply now fuel folder es k1
      (fs1 ++ fs2, k2)
    | .file name =>
      let ext := jsToLower (jsExtname name)
      if supportedExt ext then
        let fullPath := folder ++ "/" ++ name
        let fi : FileInfo :=
          { id := idSupply k, originalPath := fullPath, currentPath := fullPath,
            timestamp := now, status := "new",
            type := if ext = ".pdf" then "pdf" else "image", documentType := "invoice" }
        let (fs2, k2) := scanFolder idSupply now fuel folder es (k + 1)
        (fi :: fs2, k2)
      else scanFolder idSupply now fuel folder es k

/-- Model of the scan route's add loop: for each discovered file, skip it if
its path is already known, else `createFileInfo` stamps `lastModified` and
appends it. -/
def scanRouteAdd (reg : State) (found : List FileInfo) (now : String) : State :=
  found.foldl (fun r f =>
    if isFileKnown r f.currentPath then r
    else { r with knownFiles := r.knownFiles ++ [{ f with lastModified := some now }] }) reg


/-! ## Concrete instances and auxiliary definitions used by the verification -/

/-- The entry that `cacheResult` appends. -/
def newCacheEntry (h p : String) (r : ExtractedData) (d t : String) : CachedAnalysis :=
  { fileHash := h, originalPath := p, analysisResult := r, documentType := d,
    timestamp := t, confidence := r.confidence, extractionStatus := r.extraction_status }

/-- A state snapshot truncated inside a record whose nested "data" object
has already closed: flat enough for the "\x7d," heuristic to cut inside the
incomplete record. -/
def corruptFlat : String :=
  "\x7b\"knownFiles\": [\x7b\"id\": \"a\"\x7d,\x7b\"id\": \"b\"\x7d,\x7b\"id\": \"c\""

/-- A pretty-printed snapshot (as `JSON.stringify(state, null, 2)` writes
it) truncated mid-way through its second record: record "a" is structurally
complete in the prefix, but the last "\x7d," occurrence lies inside the
truncated record "b" (after its nested "data" object), so the source's
recovery parse fails. -/
def corruptNested : String :=
  "\x7b\n  \"knownFiles\": [\n    \x7b\n      \"id\": \"a\",\n      \"data\": \x7b\n        \"x\": \"1\"\n      \x7d,\n      \"status\": \"new\"\n    \x7d,\n    \x7b\n      \"id\": \"b\",\n      \"data\": \x7b\n        \"y\": \"2\"\n      \x7d,\n"

def mergeRespOk : MergeResponse → Bool
  | .okMerged _ _ _ => true
  | _ => false

/-- Concrete merge scenario: two known image records present on disk. -/
def regC6 : State :=
  { knownFiles :=
      [{ id := "a", originalPath := "/d/a.png", currentPath := "/d/a.png", timestamp := "t0",
         status := "new", type := "image", documentType := "invoice",
         data := none, error := none, lastModified := none },
       { id := "b", originalPath := "/d/b.png", currentPath := "/d/b.png", timestamp := "t0",
         status := "new", type := "image", documentType := "invoice",
         data := none, error := none, lastModified := none }],
    lastRun := "t0" }

def svcC6 : ServiceState := { mem := regC6, persisted := regC6 }

def fsC6 : MergeFs :=
  { exists_ := fun p => p == "/d/a.png" || p == "/d/b.png",
    times := fun p => if p == "/d/a.png" then some (11, 22) else none }

def mergeOutC6 : MergeOutcome := mergeFilesPost svcC6 fsC6 ["a", "b"] "m1" "t1"

/-! # Theorems -/

/-! ## Generic list lemmas for the string idioms -/

theorem takeWhile_append_all {p : Char → Bool} :
    ∀ (a b : List Char), (∀ c ∈ a, p c = true) → (a ++ b).takeWhile p = a ++ b.takeWhile p := by
  intro a
  induction a with
  | nil => simp
  | cons x xs ih =>
    intro b h
    have hx : p x = true := h x (by simp)
    simp only [List.cons_append, List.takeWhile_cons, hx, if_true]
    rw [ih b (fun c hc => h c (by simp [hc]))]

theorem takeWhile_ne_stop {c : Char} :
    ∀ (suf rest : List Char), (∀ x ∈ suf, x ≠ c) →
      (suf ++ c :: rest).takeWhile (fun x => x ≠ c) = suf := by
  intro suf
  induction suf with
  | nil =>
    intro rest _
    have hc : (decide (c ≠ c)) = false := by simp
    simp only [List.nil_append, List.takeWhile_cons, hc, Bool.false_eq_true, if_false]
  | cons y ys ih =>
    intro rest h
    have hy : (decide (y ≠ c)) = true := decide_eq_true (h y (by simp))
    simp only [List.cons_append, List.takeWhile_cons, hy, if_true]
    rw [ih rest (fun x hx => h x (by simp [hx]))]

/-- Basename of `d ++ "/" ++ f` is `f` when `f` has no slash. -/
theorem jsAfterLast_slash_concat (d f : String) (hf : ∀ x ∈ f.data, x ≠ '/') :
    jsAfterLast '/' (d ++ "/" ++ f) = f := by
  obtain ⟨fl⟩ := f
  have hdata : (d ++ "/" ++ String.mk fl).data = d.data ++ '/' :: fl := by
    simp [String.data_append]
  simp only [jsAfterLast, hdata, List.reverse_append, List.reverse_cons]
  rw [show ((fl.reverse ++ ['/']) ++ d.data.reverse) = fl.reverse ++ '/' :: d.data.reverse by
    simp [List.append_assoc]]
  rw [takeWhile_ne_stop fl.reverse d.data.reverse (fun x hx => hf x (List.mem_reverse.mp hx))]
  rw [List.reverse_reverse]

/-- The chunk after the last `c` of `l0 ++ suf` ends in `suf` when `suf` is
`c`-free. -/
theorem jsAfterLast_mk_append (c : Char) (l0 suf : List Char) (hs : ∀ x ∈ suf, x ≠ c) :
    (jsAfterLast c ⟨l0 ++ suf⟩).data
      = (l0.reverse.takeWhile (fun x => x ≠ c)).reverse ++ suf := by
  simp only [jsAfterLast, List.reverse_append]
  rw [takeWhile_append_all suf.reverse l0.reverse
    (fun x hx => decide_eq_true (hs x (List.mem_reverse.mp hx)))]
  simp [List.reverse_append]

/-- The chunk after the last `c` of `l0 ++ c :: suf` is exactly `suf` when
`suf` is `c`-free. -/
theorem jsAfterLast_mk_stop (c : Char) (l0 suf : List Char) (hs : ∀ x ∈ suf, x ≠ c) :
    jsAfterLast c ⟨l0 ++ c :: suf⟩ = ⟨suf⟩ := by
  simp only [jsAfterLast, List.reverse_append, List.reverse_cons]
  rw [show ((suf.reverse ++ [c]) ++ l0.reverse) = suf.reverse ++ c :: l0.reverse by
    simp [List.append_assoc]]
  rw [takeWhile_ne_stop suf.reverse l0.reverse (fun x hx => hs x (List.mem_reverse.mp hx))]
  rw [List.reverse_reverse]

/-- Extension computation: a path ending in `".pdf"` always yields extension
`"pdf"` through `split('/').pop()` then `split('.').pop()`. -/
theorem ext_of_pdf_path (cp : String) (l0 : List Char)
    (hpath : cp.data = l0 ++ ('.' :: "pdf".data)) :
    jsAfterLast '.' (jsAfterLast '/' cp) = "pdf" := by
  have hcp : cp = ⟨l0 ++ ('.' :: "pdf".data)⟩ := congrArg String.mk hpath
  have h1 : (jsAfterLast '/' cp).data
      = (l0.reverse.takeWhile (fun x => x ≠ '/')).reverse ++ ('.' :: "pdf".data) := by
    rw [hcp]
    exact jsAfterLast_mk_append '/' l0 ('.' :: "pdf".data) (by decide)
  have h2 : jsAfterLast '/' cp
      = ⟨(l0.reverse.takeWhile (fun x => x ≠ '/')).reverse ++ '.' :: "pdf".data⟩ :=
    congrArg String.mk h1
  rw [h2, jsAfterLast_mk_stop '.' _ ("pdf".data) (by decide)]

/-! ## Claim C7 -/

/-- C7: for an invoice record whose extracted fields are
company_name "Acme", invoice_date "20240101", description "Service",
invoice_amount "100", invoice_currency "EUR", and whose current path ends in
".pdf", the filename proposal's basename is exactly
"20240101-Acme-Service-EUR100.pdf" — the invoice template
date-company-description-currency+amount with the original extension
preserved. -/
theorem claim_C7_invoice_template (i o ts st ty dt : String) (err lm : Option String)
    (cp : String) (l0 : List Char) (hpath : cp.data = l0 ++ ('.' :: "pdf".data)) :
    jsAfterLast '/' (generateFileName
      { id := i, originalPath := o, currentPath := cp, timestamp := ts, status := st,
        type := ty, documentType := dt,
        data := some { invoice_date := some "20240101", company_name := some "Acme",
                       description := some "Service", invoice_amount := some "100",
                       invoice_currency := some "EUR" },
        error := err, lastModified := lm }) = "20240101-Acme-Service-EUR100.pdf" := by
  have hext := ext_of_pdf_path cp l0 hpath
  have hng : generateFileName
      { id := i, originalPath := o, currentPath := cp, timestamp := ts, status := st,
        type := ty, documentType := dt,
        data := some { invoice_date := some "20240101", company_name := some "Acme",
                       description := some "Service", invoice_amount := some "100",
                       invoice_currency := some "EUR" },
        error := err, lastModified := lm }
      = (let ext := jsAfterLast '.' (jsAfterLast '/' cp)
         let fin := jsTrim ("20240101-Acme-Service-EUR100" ++ "." ++ ext)
         if fin = "" || fin = "." ++ ext || jsStartsWith fin "." then cp
         else jsBeforeLast '/' cp ++ "/" ++ fin) := rfl
  rw [hng, hext]
  show jsAfterLast '/' (jsBeforeLast '/' cp ++ "/" ++ "20240101-Acme-Service-EUR100.pdf")
      = "20240101-Acme-Service-EUR100.pdf"
  exact jsAfterLast_slash_concat (jsBeforeLast '/' cp) "20240101-Acme-Service-EUR100.pdf" (by decide)

/-- C7 witness: the theorem applied at the concrete path "/x/doc.pdf". -/
theorem claim_C7_witness :
    jsAfterLast '/' (generateFileName
      { id := "1", originalPath := "/x/doc.pdf", currentPath := "/x/doc.pdf", timestamp := "t",
        status := "analyzed", type := "pdf", documentType := "invoice",
        data := some { invoice_date := some "20240101", company_name := some "Acme",
                       description := some "Service", invoice_amount := some "100",
                       invoice_currency := some "EUR" },
        error := none, lastModified := none }) = "20240101-Acme-Service-EUR100.pdf" :=
  claim_C7_invoice_template "1" "/x/doc.pdf" "t" "analyzed" "pdf" "invoice" none none
    "/x/doc.pdf" "/x/doc".data (by decide)

/-! ## Claim C8 -/

/-- C8: the filename proposal returns the record's unchanged current path
whenever the record has no extracted data, and every changed result appends
to the record's directory a final filename that is non-empty, differs from
the bare extension, and does not start with a dot — equivalently, if the
proposed name would be empty, the bare extension, or dot-initial, the
unchanged path is returned.  The proposal is a pure function (the model
never consults any filesystem state). -/
theorem claim_C8_no_bad_proposal (record : FileInfo) :
    (record.data = none → generateFileName record = record.currentPath) ∧
    (generateFileName record = record.currentPath ∨
      ∃ fn, generateFileName record = jsBeforeLast '/' record.currentPath ++ "/" ++ fn ∧
        fn ≠ "" ∧
        fn ≠ "." ++ jsAfterLast '.' (jsAfterLast '/' record.currentPath) ∧
        jsStartsWith fn "." = false) := by
  cases hd : record.data with
  | none =>
    refine ⟨fun _ => by simp [generateFileName, hd], Or.inl (by simp [generateFileName, hd])⟩
  | some d =>
    constructor
    · intro h
      exact Option.noConfusion h
    simp only [generateFileName, hd]
    split
    · exact Or.inl rfl
    · split
      · exact Or.inl rfl
      · rename_i nf _ hguard
        refine Or.inr ⟨jsTrim nf, rfl, ?_, ?_, ?_⟩ <;>
          simp only [Bool.or_eq_true, decide_eq_true_eq, not_or, Bool.not_eq_true] at hguard
        · exact hguard.1.1
        · exact hguard.1.2
        · exact hguard.2

/-- C8 witness: the theorem applied to a record with no extracted data. -/
theorem claim_C8_witness :
    generateFileName
      { id := "1", originalPath := "/x/a.pdf", currentPath := "/x/a.pdf", timestamp := "t",
        status := "new", type := "pdf", documentType := "invoice", data := none,
        error := none, lastModified := none } = "/x/a.pdf" :=
  (claim_C8_no_bad_proposal _).1 rfl

/-! ## Claims C5 and C4: the path allocator -/

theorem find?_range'_first {p : Nat → Bool} :
    ∀ (n s j : Nat), (List.range' s n).find? p = some j →
      p j = true ∧ s ≤ j ∧ ∀ i, s ≤ i → i < j → p i = false := by
  intro n
  induction n with
  | zero => intro s j h; simp [List.range'] at h
  | succ m ih =>
    intro s j h
    rw [List.range'_succ] at h
    by_cases hs : p s
    · rw [List.find?_cons_of_pos _ hs] at h
      injection h with h2
      subst h2
      exact ⟨hs, Nat.le_refl _, fun i hi1 hi2 => absurd (Nat.lt_of_lt_of_le hi2 hi1) (Nat.lt_irrefl _)⟩
    · rw [List.find?_cons_of_neg _ hs] at h
      obtain ⟨hj, hsj, hfirst⟩ := ih (s + 1) j h
      refine ⟨hj, Nat.le_trans (Nat.le_succ s) hsj, fun i h1 h2 => ?_⟩
      rcases Nat.eq_or_lt_of_le h1 with h1' | h1'
      · rw [← h1']
        exact Bool.eq_false_iff.mpr hs
      · exact hfirst i h1' h2

/-- Characterization of the allocation loop: with the invariant
`i + fuel = 1000` (as at the entry point `i = 1, fuel = 999`), the loop
returns the first available candidate among `_i .. _999`, or the `_999`
candidate — available or not — when none is. -/
theorem allocLoop_spec (avail : String → Bool) (d n e : String) :
    ∀ (fuel i : Nat), i + fuel = 1000 → 1 ≤ fuel →
      allocLoop avail d n e i fuel
        = suffixCandidate d n e
            (((List.range' i fuel).find? (fun j => avail (suffixCandidate d n e j))).getD 999) := by
  intro fuel
  induction fuel with
  | zero => intro i _ h1; cases h1
  | succ m ih =>
    intro i hsum _
    rw [allocLoop, List.range'_succ]
    by_cases ha : avail (suffixCandidate d n e i) = true
    · rw [if_pos ha,
        @List.find?_cons_of_pos _ (fun j => avail (suffixCandidate d n e j)) i
          (List.range' (i + 1) m) ha]
      simp
    · rw [if_neg ha,
        @List.find?_cons_of_neg _ (fun j => avail (suffixCandidate d n e j)) i
          (List.range' (i + 1) m) ha]
      by_cases hm : m = 0
      · subst hm
        have hi : i = 999 := by omega
        subst hi
        simp [List.range']
      · have hlt : i + 1 < 1000 := by omega
        rw [if_pos hlt]
        exact ih (i + 1) (by omega) (by omega)

/-- C5 (amended): the allocator first tests the base candidate and returns
it when free; on collision it scans the suffixed candidates `_1, _2, ...`
and returns the first free one (every earlier index was taken); but when no
suffix up to `_999` is free, the iteration cap makes it return the `_999`
candidate even though it still collides — it does not fail. -/
theorem claim_C5_cap_behavior (disk : String → Bool) (used : List String) (basePath : String) :
    (isPathAvailable disk used basePath = true →
        generateUniquePath disk used basePath = basePath) ∧
    (isPathAvailable disk used basePath = false →
      (generateUniquePath disk used basePath
        = suffixCandidate (jsBeforeLast '/' basePath)
            (jsBeforeLast '.' (jsAfterLast '/' basePath))
            (jsAfterLast '.' (jsAfterLast '/' basePath))
            (((List.range' 1 999).find? (fun j => isPathAvailable disk used
                (suffixCandidate (jsBeforeLast '/' basePath)
                  (jsBeforeLast '.' (jsAfterLast '/' basePath))
                  (jsAfterLast '.' (jsAfterLast '/' basePath)) j))).getD 999)) ∧
      (∀ j, (List.range' 1 999).find? (fun j => isPathAvailable disk used
                (suffixCandidate (jsBeforeLast '/' basePath)
                  (jsBeforeLast '.' (jsAfterLast '/' basePath))
                  (jsAfterLast '.' (jsAfterLast '/' basePath)) j)) = some j →
          isPathAvailable disk used
            (suffixCandidate (jsBeforeLast '/' basePath)
              (jsBeforeLast '.' (jsAfterLast '/' basePath))
              (jsAfterLast '.' (jsAfterLast '/' basePath)) j) = true ∧
          ∀ i, 1 ≤ i → i < j →
            isPathAvailable disk used
              (suffixCandidate (jsBeforeLast '/' basePath)
                (jsBeforeLast '.' (jsAfterLast '/' basePath))
                (jsAfterLast '.' (jsAfterLast '/' basePath)) i) = false)) := by
  constructor
  · intro h
    rw [generateUniquePath, if_pos h]
  · intro h
    constructor
    · rw [generateUniquePath, if_neg (by rw [h]; exact Bool.false_ne_true)]
      exact allocLoop_spec _ _ _ _ 999 1 rfl (by omega)
    · intro j hj
      obtain ⟨hpj, _, hfirst⟩ := find?_range'_first 999 1 j hj
      exact ⟨hpj, hfirst⟩

/-- C5 witness: base "/d/X.pdf" collides with the disk, so the allocator
falls into the suffix scan, whose first free candidate is "/d/X_1.pdf". -/
theorem claim_C5_witness :
    generateUniquePath (fun p => p == "/d/X.pdf") [] "/d/X.pdf"
      = suffixCandidate "/d" "X" "pdf"
          (((List.range' 1 999).find? (fun j => isPathAvailable (fun p => p == "/d/X.pdf") []
              (suffixCandidate "/d" "X" "pdf" j))).getD 999) :=
  ((claim_C5_cap_behavior (fun p => p == "/d/X.pdf") [] "/d/X.pdf").2 rfl).1

/-- C5 counterexample to the claim as stated: when the base and every
suffixed candidate up to the cap are taken, the allocator does not fail
loudly — it returns "/d/X_999.pdf", a path that still collides (it is not
available). -/
theorem claim_C5_counterexample :
    generateUniquePath (fun _ => true) [] "/d/X.pdf" = "/d/X_999.pdf" ∧
    isPathAvailable (fun _ => true) [] "/d/X_999.pdf" = false := by
  have havail : ∀ p, isPathAvailable (fun _ => true) [] p = false := fun p => rfl
  constructor
  · simp only [generateUniquePath]
    rw [havail "/d/X.pdf"]
    simp only [Bool.false_eq_true, if_false]
    rw [allocLoop_spec _ _ _ _ 999 1 rfl (by omega)]
    rw [List.find?_eq_none.mpr (fun x _ => by rw [havail]; simp)]
    rfl
  · exact havail _

/-- When the base "/d/X.pdf" and every suffixed candidate are unavailable,
the allocator exhausts its cap and returns the last tried candidate. -/
theorem genUnique_collapse (disk : String → Bool) (used : List String)
    (hbase : isPathAvailable disk used "/d/X.pdf" = false)
    (hcand : ∀ j, isPathAvailable disk used (suffixCandidate "/d" "X" "pdf" j) = false) :
    generateUniquePath disk used "/d/X.pdf" = "/d/X_999.pdf" := by
  simp only [generateUniquePath]
  rw [hbase]
  simp only [Bool.false_eq_true, if_false]
  rw [show jsBeforeLast '/' "/d/X.pdf" = "/d" from rfl,
      show jsBeforeLast '.' (jsAfterLast '/' "/d/X.pdf") = "X" from rfl,
      show jsAfterLast '.' (jsAfterLast '/' "/d/X.pdf") = "pdf" from rfl]
  rw [allocLoop_spec _ _ _ _ 999 1 rfl (by omega)]
  rw [List.find?_eq_none.mpr (fun x _ => by rw [hcand]; simp)]
  rfl

/-- C4 counterexample to the claim as stated: in a batch of two records that
both propose "/d/X.pdf" while every relevant path is taken, the cap makes
*both* allocations return the same path "/d/X_999.pdf" (which moreover is
taken on disk), so allocations within one batch are not collision-free in
general. -/
theorem claim_C4_counterexample :
    ((runBatch { disk := fun _ => true, used := [], allocated := [] }
        [("/d/X_999.pdf", "/d/X.pdf"), ("/d/b.png", "/d/X.pdf")]).allocated.map Prod.snd)
      = ["/d/X_999.pdf", "/d/X_999.pdf"] := by
  have h1 : generateUniquePath (fun _ => true) [] "/d/X.pdf" = "/d/X_999.pdf" :=
    genUnique_collapse (fun _ => true) [] rfl (fun j => rfl)
  simp only [runBatch, batchStep, h1]
  have h2 : generateUniquePath
      (fun q => if q = "/d/X_999.pdf" then true else if q = "/d/X_999.pdf" then false else true)
      ["/d/X_999.pdf"] "/d/X.pdf" = "/d/X_999.pdf" := by
    have hdisk : ∀ p, (if p = "/d/X_999.pdf" then true
        else if p = "/d/X_999.pdf" then false else true) = true := by
      intro p
      by_cases hp : p = "/d/X_999.pdf" <;> simp [hp]
    refine genUnique_collapse _ _ ?_ ?_
    · simp only [isPathAvailable, hdisk]
      simp
    · intro j
      simp only [isPathAvailable, hdisk]
      simp
  rw [h2]
  rfl

/-- A successful checked run is the plain run, and every step's allocation
was available (not reserved, not on disk) at its own allocation time. -/
theorem runBatchChecked_spec :
    ∀ (items : List (String × String)) (st st2 : BatchState),
      runBatchChecked st items = some st2 →
      runBatch st items = st2 ∧
      ∀ k (hk : k < items.length),
        isPathAvailable (runBatch st (items.take k)).disk (runBatch st (items.take k)).used
          (generateUniquePath (runBatch st (items.take k)).disk
            (runBatch st (items.take k)).used (items.get ⟨k, hk⟩).2) = true := by
  intro items
  induction items with
  | nil =>
    intro st st2 h
    injection h with h
    exact ⟨h, fun k hk => absurd hk (by simp)⟩
  | cons it rest ih =>
    intro st st2 h
    rw [runBatchChecked] at h
    by_cases hav : isPathAvailable st.disk st.used
        (generateUniquePath st.disk st.used it.2) = true
    · rw [if_pos hav] at h
      obtain ⟨hrun, hsteps⟩ := ih (batchStep st it.1 it.2) st2 h
      refine ⟨by rw [runBatch]; exact hrun, fun k hk => ?_⟩
      cases k with
      | zero => simpa using hav
      | succ k' =>
        have hk' : k' < rest.length := by simpa using hk
        have htake : (it :: rest).take (k' + 1) = it :: rest.take k' := rfl
        have hget : (it :: rest).get ⟨k' + 1, hk⟩ = rest.get ⟨k', hk'⟩ := rfl
        rw [htake, hget, show runBatch st (it :: rest.take k')
            = runBatch (batchStep st it.1 it.2) (rest.take k') from rfl]
        exact hsteps k' hk'
    · rw [if_neg hav] at h
      cases h

/-- A successful checked run keeps the allocated target paths duplicate-free
(given the inductive invariant that previously allocated paths are
reserved). -/
theorem runBatchChecked_nodup :
    ∀ (items : List (String × String)) (st st2 : BatchState),
      runBatchChecked st items = some st2 →
      (st.allocated.map Prod.snd).Nodup →
      (∀ p ∈ st.allocated.map Prod.snd, p ∈ st.used) →
      (st2.allocated.map Prod.snd).Nodup := by
  intro items
  induction items with
  | nil =>
    intro st st2 h hnd _
    injection h with h
    rw [← h]
    exact hnd
  | cons it rest ih =>
    intro st st2 h hnd hsub
    rw [runBatchChecked] at h
    by_cases hav : isPathAvailable st.disk st.used
        (generateUniquePath st.disk st.used it.2) = true
    · rw [if_pos hav] at h
      have hnotused : generateUniquePath st.disk st.used it.2 ∉ st.used := by
        simp only [isPathAvailable, Bool.and_eq_true, Bool.not_eq_true'] at hav
        intro hmem
        have hc : st.used.contains (generateUniquePath st.disk st.used it.2) = true :=
          List.elem_eq_true_of_mem hmem
        rw [hc] at hav
        exact absurd hav.1 (by simp)
      refine ih (batchStep st it.1 it.2) st2 h ?_ ?_
      · simp only [batchStep, List.map_append, List.map_cons, List.map_nil]
        rw [List.nodup_append]
        refine ⟨hnd, List.nodup_singleton _, fun p hp hq => ?_⟩
        simp only [List.mem_singleton] at hq
        subst hq
        exact hnotused (hsub _ hp)
      · intro p hp
        simp only [batchStep, List.map_append, List.map_cons, List.map_nil,
          List.mem_append, List.mem_singleton] at hp
        rcases hp with hp | hp
        · exact List.mem_cons_of_mem _ (hsub p hp)
        · subst hp
          exact List.mem_cons_self _ _
    · rw [if_neg hav] at h
      cases h

/-- C4 (amended): the batch-rename loop consults and updates a per-batch
reserved set as paths are allocated, so *provided every allocation finds a
genuinely free path within the allocator's iteration cap* (a successful
checked run), no two allocations in the batch return the same path and no
allocated path was reserved or present on disk at its allocation time; in
particular, two same-batch proposals of "X.pdf" against a disk already
holding "X.pdf" resolve to the distinct paths "X_1.pdf" and "X_2.pdf". -/
theorem claim_C4_batch_reservation :
    (∀ (items : List (String × String)) (st st2 : BatchState),
        runBatchChecked st items = some st2 →
        (st.allocated.map Prod.snd).Nodup →
        (∀ p ∈ st.allocated.map Prod.snd, p ∈ st.used) →
        (st2.allocated.map Prod.snd).Nodup) ∧
    (∀ (items : List (String × String)) (st st2 : BatchState),
        runBatchChecked st items = some st2 →
        ∀ k (hk : k < items.length),
          (runBatch st (items.take k)).disk
              (generateUniquePath (runBatch st (items.take k)).disk
                (runBatch st (items.take k)).used (items.get ⟨k, hk⟩).2) = false ∧
          (runBatch st (items.take k)).used.contains
              (generateUniquePath (runBatch st (items.take k)).disk
                (runBatch st (items.take k)).used (items.get ⟨k, hk⟩).2) = false) ∧
    ((runBatch { disk := fun p => p == "/d/X.pdf", used := [], allocated := [] }
        [("/d/a.png", "/d/X.pdf"), ("/d/b.png", "/d/X.pdf")]).allocated.map Prod.snd
      = ["/d/X_1.pdf", "/d/X_2.pdf"]) := by
  refine ⟨runBatchChecked_nodup, fun items st st2 h k hk => ?_, rfl⟩
  have hav := (runBatchChecked_spec items st st2 h).2 k hk
  simp only [isPathAvailable, Bool.and_eq_true, Bool.not_eq_true'] at hav
  exact ⟨hav.2, hav.1⟩

/-- C4 witness: the amended theorem applied to the concrete two-proposal
batch over an empty reservation set; the checked run succeeds and its
allocations are duplicate-free. -/
theorem claim_C4_witness :
    ((runBatchChecked { disk := fun p => p == "/d/X.pdf", used := [], allocated := [] }
        [("/d/a.png", "/d/X.pdf"), ("/d/b.png", "/d/X.pdf")]).getD
      { disk := fun _ => false, used := [], allocated := [] }).allocated.map Prod.snd
      |>.Nodup := by
  have h : runBatchChecked { disk := fun p => p == "/d/X.pdf", used := [], allocated := [] }
      [("/d/a.png", "/d/X.pdf"), ("/d/b.png", "/d/X.pdf")]
      = some (runBatch { disk := fun p => p == "/d/X.pdf", used := [], allocated := [] }
          [("/d/a.png", "/d/X.pdf"), ("/d/b.png", "/d/X.pdf")]) := rfl
  rw [h]
  exact (claim_C4_batch_reservation).1 _ _ _ h (by simp) (by simp)



/-- C3: content is the sole cache identity.  (1) Every cache state reachable
through the service's operations keeps at most one entry per content hash.
(2) Lookup depends on the path only through the file's bytes, so
identical-byte files at different paths share the entry just cached for one
of them.  (3) Any successful lookup returns an entry keyed by the hash of
the file's current bytes — after a byte change, the old entry can no longer
be returned, and if no entry carries the new hash the lookup misses.
(4) `cacheResult` removes every prior entry with the same hash before
appending the new one. -/
theorem claim_C3_content_identity :
    (∀ (env : CacheEnv) (c : List CachedAnalysis), CacheReachable env c → hashUnique c) ∧
    (∀ (env : CacheEnv) (c : List CachedAnalysis) (p q : String),
        env.disk p = env.disk q → getCachedResult env c p = getCachedResult env c q) ∧
    (∀ (env : CacheEnv) (c c2 : List CachedAnalysis) (p1 p2 : String) (b : List Nat)
        (r : ExtractedData) (d t : String),
        env.disk p1 = some b → env.disk p2 = some b →
        cacheResult env c p1 r d t = some c2 →
        getCachedResult env c2 p2 = some (newCacheEntry (env.hashFn b) p1 r d t)) ∧
    (∀ (env : CacheEnv) (c : List CachedAnalysis) (p : String) (b : List Nat),
        env.disk p = some b →
        (∀ e, getCachedResult env c p = some e → e.fileHash = env.hashFn b) ∧
        ((∀ e ∈ c, e.fileHash ≠ env.hashFn b) → getCachedResult env c p = none)) ∧
    (∀ (env : CacheEnv) (c c2 : List CachedAnalysis) (p : String)
        (r : ExtractedData) (d t : String),
        cacheResult env c p r d t = some c2 →
        ∃ b, env.disk p = some b ∧
          newCacheEntry (env.hashFn b) p r d t ∈ c2 ∧
          (∀ e ∈ c2, e.fileHash = env.hashFn b → e = newCacheEntry (env.hashFn b) p r d t) ∧
          (∀ e ∈ c, e.fileHash ≠ env.hashFn b → e ∈ c2)) := by
  have hput : ∀ (env : CacheEnv) (c c2 : List CachedAnalysis) (p : String)
      (r : ExtractedData) (d t : String), cacheResult env c p r d t = some c2 →
      ∃ b, env.disk p = some b ∧
        c2 = c.filter (fun e => e.fileHash != env.hashFn b) ++ [newCacheEntry (env.hashFn b) p r d t] := by
    intro env c c2 p r d t h
    cases hd : env.disk p with
    | none =>
      rw [cacheResult, calculateFileHash, hd] at h
      cases h
    | some b =>
      rw [cacheResult, calculateFileHash, hd] at h
      injection h with h
      exact ⟨b, rfl, h.symm⟩
  refine ⟨?_, ?_, ?_, ?_, ?_⟩
  · intro env c hreach
    induction hreach with
    | init => exact List.Pairwise.nil
    | put hr hres ih =>
      rename_i c' p r d t c2
      obtain ⟨b, _, rfl⟩ := hput env c' c2 p r d t hres
      rw [hashUnique, List.pairwise_append]
      refine ⟨List.Pairwise.filter _ ih, List.pairwise_singleton _ _, ?_⟩
      intro a ha e he
      simp only [List.mem_filter, bne_iff_ne, ne_eq] at ha
      simp only [List.mem_singleton] at he
      subst he
      exact ha.2
    | remove hr ih =>
      rename_i c' p
      rw [removeCachedResult]
      cases calculateFileHash env p with
      | none => exact ih
      | some h => exact List.Pairwise.filter _ ih
  · intro env c p q hpq
    simp only [getCachedResult, calculateFileHash, hpq]
  · intro env c c2 p1 p2 b r d t hb1 hb2 hres
    obtain ⟨b', hb', rfl⟩ := hput env c c2 p1 r d t hres
    rw [hb1] at hb'
    injection hb' with hb'
    subst hb'
    have hcalc : calculateFileHash env p2 = some (env.hashFn b) := by
      rw [calculateFileHash, hb2]
      rfl
    simp only [getCachedResult, hcalc]
    rw [List.find?_append]
    rw [List.find?_eq_none.mpr ?side]
    case side =>
      intro e he
      simp only [List.mem_filter, bne_iff_ne, ne_eq] at he
      simp only [beq_iff_eq]
      exact he.2
    simp [newCacheEntry]
  · intro env c p b hb
    have hcalc : calculateFileHash env p = some (env.hashFn b) := by
      rw [calculateFileHash, hb]
      rfl
    constructor
    · intro e he
      simp only [getCachedResult, hcalc] at he
      have := List.find?_some he
      simpa [beq_iff_eq] using this
    · intro hnone
      simp only [getCachedResult, hcalc]
      exact List.find?_eq_none.mpr (fun e he => by simpa [beq_iff_eq] using hnone e he)
  · intro env c c2 p r d t hres
    obtain ⟨b, hb, rfl⟩ := hput env c c2 p r d t hres
    refine ⟨b, hb, by simp, ?_, ?_⟩
    · intro e he heq
      simp only [List.mem_append, List.mem_filter, bne_iff_ne, ne_eq, List.mem_singleton] at he
      rcases he with ⟨_, hne⟩ | he
      · exact absurd heq hne
      · exact he
    · intro e he hne
      simp only [List.mem_append, List.mem_filter, bne_iff_ne, ne_eq]
      exact Or.inl ⟨he, hne⟩

/-- C3 witness: a concrete environment where two paths hold identical bytes;
caching for the first path makes lookup through the second hit the same
single entry. -/
theorem claim_C3_witness :
    getCachedResult
      { disk := fun p => if p = "/a" || p = "/b" then some [7, 7] else none,
        hashFn := fun bytes => toString bytes }
      ((List.filter (fun e => e.fileHash != toString [7, 7]) []) ++
        [newCacheEntry (toString [7, 7]) "/a" {} "invoice" "t"]) "/b"
      = some (newCacheEntry (toString [7, 7]) "/a" {} "invoice" "t") :=
  (claim_C3_content_identity).2.2.1
    { disk := fun p => if p = "/a" || p = "/b" then some [7, 7] else none,
      hashFn := fun bytes => toString bytes }
    [] _ "/a" "/b" [7, 7] {} "invoice" "t" rfl rfl rfl

/-- C10: every record a scan creates for a newly discovered supported file
has status "new", `originalPath = currentPath`, and documentType "invoice"
(the unconditional default, whatever the file's kind); and the scan route
only ever adds such discovered records (with `lastModified` stamped),
skipping already-known paths. -/
theorem claim_C10_scan_defaults :
    (∀ (idSupply : Nat → String) (now : String) (fuel : Nat) (folder : String)
        (entries : List DirEntry) (k : Nat) (f : FileInfo),
        f ∈ (scanFolder idSupply now fuel folder entries k).1 →
        f.status = "new" ∧ f.originalPath = f.currentPath ∧ f.documentType = "invoice") ∧
    (∀ (reg : State) (found : List FileInfo) (now : String) (f : FileInfo),
        f ∈ (scanRouteAdd reg found now).knownFiles →
        f ∈ reg.knownFiles ∨ ∃ g ∈ found, f = { g with lastModified := some now }) := by
  constructor
  · intro idSupply now fuel
    induction fuel with
    | zero =>
      intro folder entries k f hf
      simp [scanFolder] at hf
    | succ n ih =>
      intro folder entries k f hf
      cases entries with
      | nil => simp [scanFolder] at hf
      | cons e es =>
        cases e with
        | dir name sub =>
          rw [scanFolder] at hf
          rcases h1 : scanFolder idSupply now n (folder ++ "/" ++ name) sub k with ⟨fs1, k1⟩
          rw [h1] at hf
          dsimp only at hf
          rcases h2 : scanFolder idSupply now n folder es k1 with ⟨fs2, k2⟩
          rw [h2] at hf
          dsimp only at hf
          simp only [List.mem_append] at hf
          rcases hf with hf | hf
          · exact ih (folder ++ "/" ++ name) sub k f (by rw [h1]; exact hf)
          · exact ih folder es k1 f (by rw [h2]; exact hf)
        | file name =>
          rw [scanFolder] at hf
          by_cases hs : supportedExt (jsToLower (jsExtname name)) = true
          · rw [if_pos hs] at hf
            rcases h2 : scanFolder idSupply now n folder es (k + 1) with ⟨fs2, k2⟩
            dsimp only at hf
            rw [h2] at hf
            dsimp only at hf
            simp only [List.mem_cons] at hf
            rcases hf with hf | hf
            · subst hf
              exact ⟨rfl, rfl, rfl⟩
            · exact ih folder es (k + 1) f (by rw [h2]; exact hf)
          · rw [if_neg hs] at hf
            exact ih folder es k f hf
  · intro reg found now
    induction found generalizing reg with
    | nil =>
      intro f hf
      exact Or.inl hf
    | cons g gs ih =>
      intro f hf
      have hstep : scanRouteAdd reg (g :: gs) now
          = scanRouteAdd (if isFileKnown reg g.currentPath then reg
              else { reg with knownFiles := reg.knownFiles ++ [{ g with lastModified := some now }] })
              gs now := rfl
      rw [hstep] at hf
      by_cases hknown : isFileKnown reg g.currentPath = true
      · rw [if_pos hknown] at hf
        rcases ih reg f hf with hf | ⟨g', hg', he⟩
        · exact Or.inl hf
        · exact Or.inr ⟨g', List.mem_cons_of_mem _ hg', he⟩
      · rw [if_neg hknown] at hf
        rcases ih _ f hf with hf | ⟨g', hg', he⟩
        · simp only [List.mem_append, List.mem_singleton] at hf
          rcases hf with hf | hf
          · exact Or.inl hf
          · exact Or.inr ⟨g, List.mem_cons_self _ _, hf⟩
        · exact Or.inr ⟨g', List.mem_cons_of_mem _ hg', he⟩

/-- C10 witness: the theorem applied to a one-file scan of "/r/a.PNG" — an
image file, still recorded with the invoice default. -/
theorem claim_C10_witness :
    ({ id := "id0", originalPath := "/r/a.PNG", currentPath := "/r/a.PNG", timestamp := "t",
       status := "new", type := "image", documentType := "invoice",
       data := none, error := none, lastModified := none } : FileInfo).status = "new" ∧
    ({ id := "id0", originalPath := "/r/a.PNG", currentPath := "/r/a.PNG", timestamp := "t",
       status := "new", type := "image", documentType := "invoice",
       data := none, error := none, lastModified := none } : FileInfo).originalPath
      = ({ id := "id0", originalPath := "/r/a.PNG", currentPath := "/r/a.PNG", timestamp := "t",
           status := "new", type := "image", documentType := "invoice",
           data := none, error := none, lastModified := none } : FileInfo).currentPath ∧
    ({ id := "id0", originalPath := "/r/a.PNG", currentPath := "/r/a.PNG", timestamp := "t",
       status := "new", type := "image", documentType := "invoice",
       data := none, error := none, lastModified := none } : FileInfo).documentType = "invoice" :=
  (claim_C10_scan_defaults).1 (fun k => "id" ++ toString k) "t" 3 "/r" [.file "a.PNG"] 0
    _ (by decide)

/-- The batch loop emits exactly one result per requested id. -/
theorem analyzeBatch_length (env : AnalyzeEnv) :
    ∀ (ids : List String) (reg : State) (cache : List CachedAnalysis),
      ((analyzeBatch env reg cache ids).2.2).length = ids.length := by
  intro ids
  induction ids with
  | nil => intro reg cache; rfl
  | cons id rest ih =>
    intro reg cache
    rcases h1 : analyzeOne env reg cache id with ⟨reg1, cache1, res⟩
    rw [analyzeBatch, h1]
    dsimp only
    rcases h2 : analyzeBatch env reg1 cache1 rest with ⟨reg2, cache2, ress⟩
    have := ih reg1 cache1
    rw [h2] at this
    simpa using this

/-- C9: (1) a record already marked bad is skipped — the registry and cache
are untouched and the item reports a structured error; (2) the batch still
produces one result per requested id (it continues past skipped or failed
items); (3) a failed extraction marks the record bad with the error message
recorded; (4) a successful extraction (on a readable file, cache miss)
marks the record analyzed and clears any previous error; (5) resetBadFiles
sets every bad record back to status "new" with its error cleared, leaves
other records alone, and leaves no bad record behind. -/
theorem claim_C9_bad_sticky :
    (∀ (env : AnalyzeEnv) (reg : State) (cache : List CachedAnalysis) (id : String)
        (fi : FileInfo), getFileById reg id = some fi → fi.status = "bad" →
        analyzeOne env reg cache id =
          (reg, cache, { id := id, success := false,
                         error := some "File has been marked as bad after failed analysis" })) ∧
    (∀ (env : AnalyzeEnv) (reg : State) (cache : List CachedAnalysis) (ids : List String)
        (id : String),
        ((analyzeBatch env reg cache (id :: ids)).2.2).length = ids.length + 1) ∧
    (∀ (env : AnalyzeEnv) (reg : State) (cache : List CachedAnalysis) (id : String)
        (fi : FileInfo), getFileById reg id = some fi → ¬ fi.status = "bad" →
        getCachedResult env.cacheEnv cache fi.currentPath = none →
        env.processFile fi = none →
        analyzeOne env reg cache id =
          (updateFile reg { fi with status := "bad", error := some "Failed to analyze file",
                                    lastModified := some env.now }, cache,
           { id := id, success := false, error := some "Failed to analyze file" })) ∧
    (∀ (env : AnalyzeEnv) (reg : State) (cache : List CachedAnalysis) (id : String)
        (fi : FileInfo) (d : ExtractedData) (dt : String) (b : List Nat),
        getFileById reg id = some fi → ¬ fi.status = "bad" →
        getCachedResult env.cacheEnv cache fi.currentPath = none →
        env.processFile fi = some (d, dt) →
        env.cacheEnv.disk fi.currentPath = some b →
        ∃ cache2, analyzeOne env reg cache id =
          (updateFile reg { fi with data := some d, documentType := toDocumentType dt,
                                    status := "analyzed", error := none,
                                    lastModified := some env.now }, cache2,
           { id := id, success := true, error := none, usedCache := false })) ∧
    (∀ (st : State) (now : String) (g : FileInfo), g ∈ st.knownFiles →
        (g.status = "bad" →
          { g with status := "new", error := none, lastModified := some now }
            ∈ (resetBadFiles st now).knownFiles) ∧
        (¬ g.status = "bad" → g ∈ (resetBadFiles st now).knownFiles)) ∧
    (∀ (st : State) (now : String) (f : FileInfo),
        f ∈ (resetBadFiles st now).knownFiles → ¬ f.status = "bad") := by
  refine ⟨?_, ?_, ?_, ?_, ?_, ?_⟩
  · intro env reg cache id fi hget hbad
    simp only [analyzeOne, hget]
    rw [if_pos hbad]
  · intro env reg cache ids id
    rw [analyzeBatch_length]
    simp
  · intro env reg cache id fi hget hbad hcache hproc
    simp only [analyzeOne, hget, hcache, hproc]
    rw [if_neg hbad]
  · intro env reg cache id fi d dt b hget hbad hcache hproc hdisk
    have hcr : cacheResult env.cacheEnv cache fi.currentPath d (toDocumentType dt) env.now
        = some (cache.filter (fun e => e.fileHash != env.cacheEnv.hashFn b) ++
            [newCacheEntry (env.cacheEnv.hashFn b) fi.currentPath d (toDocumentType dt) env.now]) := by
      rw [cacheResult, calculateFileHash, hdisk]
      rfl
    refine ⟨cache.filter (fun e => e.fileHash != env.cacheEnv.hashFn b) ++
        [newCacheEntry (env.cacheEnv.hashFn b) fi.currentPath d (toDocumentType dt) env.now], ?_⟩
    simp only [analyzeOne, hget, hcache, hproc, hcr]
    rw [if_neg hbad]
  · intro st now g hg
    constructor
    · intro hbad
      have hmem := List.mem_map_of_mem (fun f : FileInfo => if f.status = "bad"
          then { f with status := "new", error := none, lastModified := some now } else f) hg
      dsimp only at hmem
      rw [if_pos hbad] at hmem
      exact hmem
    · intro hnotbad
      have hmem := List.mem_map_of_mem (fun f : FileInfo => if f.status = "bad"
          then { f with status := "new", error := none, lastModified := some now } else f) hg
      dsimp only at hmem
      rw [if_neg hnotbad] at hmem
      exact hmem
  · intro st now f hf
    rw [resetBadFiles] at hf
    simp only [List.mem_map] at hf
    obtain ⟨g, _, hfg⟩ := hf
    by_cases hb : g.status = "bad"
    · rw [if_pos hb] at hfg
      rw [← hfg]
      simp
    · rw [if_neg hb] at hfg
      rw [← hfg]
      exact hb

/-- C9 witness: the skip conjunct applied to a concrete registry holding a
record already marked bad. -/
theorem claim_C9_witness :
    analyzeOne
      { cacheEnv := { disk := fun _ => none, hashFn := fun _ => "" },
        processFile := fun _ => none, now := "t1" }
      { knownFiles := [{ id := "x", originalPath := "/d/x.pdf", currentPath := "/d/x.pdf",
                         timestamp := "t0", status := "bad", type := "pdf",
                         documentType := "invoice", data := none,
                         error := some "previous failure", lastModified := none }],
        lastRun := "t0" } [] "x"
      = ({ knownFiles := [{ id := "x", originalPath := "/d/x.pdf", currentPath := "/d/x.pdf",
                            timestamp := "t0", status := "bad", type := "pdf",
                            documentType := "invoice", data := none,
                            error := some "previous failure", lastModified := none }],
           lastRun := "t0" }, [],
         { id := "x", success := false,
           error := some "File has been marked as bad after failed analysis" }) :=
  (claim_C9_bad_sticky).1
    { cacheEnv := { disk := fun _ => none, hashFn := fun _ => "" },
      processFile := fun _ => none, now := "t1" }
    _ [] "x" _ rfl rfl

theorem mem_insertDescBy (x a : Nat × String) :
    ∀ (l : List (Nat × String)), a ∈ insertDescBy x l ↔ a = x ∨ a ∈ l := by
  intro l
  induction l with
  | nil => simp [insertDescBy]
  | cons y ys ih =>
    rw [insertDescBy]
    by_cases h : y.1 ≤ x.1
    · rw [if_pos h]
      simp only [List.mem_cons]
    · rw [if_neg h]
      simp only [List.mem_cons, ih]
      tauto

theorem mem_sortDescBy (a : Nat × String) :
    ∀ (l : List (Nat × String)), a ∈ sortDescBy l ↔ a ∈ l := by
  intro l
  induction l with
  | nil => simp [sortDescBy]
  | cons y ys ih =>
    rw [show sortDescBy (y :: ys) = insertDescBy y (sortDescBy ys) from rfl,
        mem_insertDescBy]
    simp only [List.mem_cons, ih]

theorem pairwise_insertDescBy (x : Nat × String) :
    ∀ (l : List (Nat × String)), l.Pairwise (fun a b => b.1 ≤ a.1) →
      (insertDescBy x l).Pairwise (fun a b => b.1 ≤ a.1) := by
  intro l
  induction l with
  | nil => intro _; simp [insertDescBy]
  | cons y ys ih =>
    intro hp
    rcases List.pairwise_cons.mp hp with ⟨hy, hys⟩
    rw [insertDescBy]
    by_cases h : y.1 ≤ x.1
    · rw [if_pos h]
      refine List.pairwise_cons.mpr ⟨?_, hp⟩
      intro b hb
      rcases List.mem_cons.mp hb with rfl | hb
      · exact h
      · exact Nat.le_trans (hy b hb) h
    · rw [if_neg h]
      refine List.pairwise_cons.mpr ⟨?_, ih hys⟩
      intro b hb
      rcases (mem_insertDescBy x b ys).mp hb with rfl | hb
      · omega
      · exact hy b hb

theorem pairwise_sortDescBy :
    ∀ (l : List (Nat × String)), (sortDescBy l).Pairwise (fun a b => b.1 ≤ a.1) := by
  intro l
  induction l with
  | nil => simp [sortDescBy]
  | cons y ys ih => exact pairwise_insertDescBy y (sortDescBy ys) ih

/-- C1: along the whole trace of a `saveState` call, the canonical snapshot
path always holds either the complete previous snapshot or the complete new
one — partial content only ever lives in the temp file, which is renamed
over the canonical path in one final step; and when a previous snapshot
existed, it is first copied into the backup set, which after pruning holds
at most 3 backups, all drawn from the candidates, and no pruned-away backup
is newer than a kept one. -/
theorem claim_C1_atomic_save (fs : FsSnap) (jsonString : String) (now : Nat) :
    (∀ s ∈ saveStateTrace fs jsonString now,
        s.canonical = fs.canonical ∨ s.canonical = some jsonString) ∧
    ((saveStateResult fs jsonString now).canonical = some jsonString ∧
      (saveStateResult fs jsonString now).temp = none) ∧
    (∀ old, fs.canonical = some old →
      (∃ s ∈ saveStateTrace fs jsonString now,
          s.backups = (now, old) :: fs.backups ∧ s.canonical = some old) ∧
      (saveStateResult fs jsonString now).backups.length ≤ 3 ∧
      (∀ b ∈ (saveStateResult fs jsonString now).backups, b ∈ (now, old) :: fs.backups) ∧
      (∃ rest, sortDescBy ((now, old) :: fs.backups)
          = (saveStateResult fs jsonString now).backups ++ rest ∧
        ∀ b ∈ (saveStateResult fs jsonString now).backups, ∀ r ∈ rest, r.1 ≤ b.1)) := by
  have hw : ∀ (base : FsSnap) (c : String) (s : FsSnap),
      s ∈ writeTempStates base c → s.canonical = base.canonical := by
    intro base c s hsw
    simp only [writeTempStates, List.mem_map, List.mem_range] at hsw
    obtain ⟨k, _, he⟩ := hsw
    rw [← he]
  refine ⟨?_, ⟨rfl, rfl⟩, ?_⟩
  · intro s hs
    cases hc : fs.canonical with
    | none =>
      simp only [saveStateTrace, hc, List.mem_append, List.mem_cons, List.mem_singleton,
        List.not_mem_nil, or_false] at hs
      rcases hs with (rfl | hs) | rfl
      · exact Or.inl hc
      · exact Or.inl ((hw fs jsonString s hs).trans hc)
      · exact Or.inr rfl
    | some old =>
      simp only [saveStateTrace, hc, List.mem_append, List.mem_cons, List.mem_singleton,
        List.not_mem_nil, or_false] at hs
      rcases hs with ((rfl | rfl | rfl) | hs) | rfl
      · exact Or.inl hc
      · exact Or.inl rfl
      · exact Or.inl rfl
      · exact Or.inl (hw _ jsonString s hs)
      · exact Or.inr rfl
  · intro old hold
    refine ⟨⟨{ fs with backups := (now, old) :: fs.backups }, ?_, rfl, ?_⟩, ?_, ?_, ?_⟩
    · simp [saveStateTrace, hold]
    · exact hold
    · rw [saveStateResult, hold]
      dsimp only
      rw [keepNewest3]
      exact List.length_take_le 3 _
    · intro b hb
      rw [saveStateResult, hold] at hb
      dsimp only at hb
      rw [keepNewest3] at hb
      exact (mem_sortDescBy b _).mp (List.take_subset 3 _ hb)
    · refine ⟨(sortDescBy ((now, old) :: fs.backups)).drop 3, ?_, ?_⟩
      · rw [saveStateResult, hold]
        dsimp only
        rw [keepNewest3, List.take_append_drop]
      · intro b hb r hr
        have hpw := pairwise_sortDescBy ((now, old) :: fs.backups)
        rw [← List.take_append_drop 3 (sortDescBy ((now, old) :: fs.backups))] at hpw
        rw [saveStateResult, hold] at hb
        dsimp only at hb
        rw [keepNewest3] at hb
        exact (List.pairwise_append.mp hpw).2.2 b hb r hr

/-- C1 witness: the canonical-path conjunct applied to the initial trace
state of a concrete save over an existing snapshot. -/
theorem claim_C1_witness :
    ({ canonical := some "old", temp := none, backups := [(1, "older")] } : FsSnap).canonical
        = ({ canonical := some "old", temp := none, backups := [(1, "older")] } : FsSnap).canonical ∨
    ({ canonical := some "old", temp := none, backups := [(1, "older")] } : FsSnap).canonical
        = some "new" :=
  (claim_C1_atomic_save { canonical := some "old", temp := none, backups := [(1, "older")] }
    "new" 5).1 { canonical := some "old", temp := none, backups := [(1, "older")] } (by decide)

/-- C2 (amended): when the snapshot content fails to parse, `loadState` does
not raise (the model is a total function); it logs the corruption, backs the
corrupt file up under a timestamp-suffixed name, and attempts
truncation-recovery by cutting the content at the error position, then at
the last occurrence of the two-character substring "\x7d," (at index > 0),
appending "]\x7d" and re-parsing; when that yields an object with a
knownFiles array the recovered snapshot is adopted and saved, and otherwise
it falls back to the empty snapshot — in both cases with the action
logged. -/
theorem claim_C2_loadstate_recovery (data : String) (now pos : Nat)
    (h : parseJson data = .error pos) :
    (loadStateModel (.ok data) now).backupWritten
        = some (statePath ++ ".corrupted." ++ toString now) ∧
    ("error", "State file is corrupted (JSON parse error)") ∈ (loadStateModel (.ok data) now).log ∧
    ((∃ n, (loadStateModel (.ok data) now).outcome = LoadOutcome.recoveredSome n ∧
        (loadStateModel (.ok data) now).savedAfter = true ∧
        ("warn", "Recovered " ++ toString n ++ " files from corrupted state")
          ∈ (loadStateModel (.ok data) now).log ∧
        ∃ i j, lastIndexOfSub "\x7d," ⟨data.data.take pos⟩ = some i ∧ 0 < i ∧
          parseJson (⟨(data.data.take pos).take (i + 1)⟩ ++ "]\x7d") = .ok j ∧
          jsonKnownFilesCount j = some n) ∨
      ((loadStateModel (.ok data) now).outcome = LoadOutcome.fellBackEmpty ∧
        (loadStateModel (.ok data) now).savedAfter = true ∧
        ("warn", "Starting with empty state due to corruption")
          ∈ (loadStateModel (.ok data) now).log)) := by
  simp only [loadStateModel, h]
  rcases hli : lastIndexOfSub "\x7d," (⟨List.take pos data.data⟩ : String) with _ | i
  · exact ⟨rfl, by simp, Or.inr ⟨rfl, rfl, by simp⟩⟩
  · dsimp only
    by_cases hi : i > 0
    · rw [if_pos hi]
      cases hpj : parseJson ((⟨List.take (i + 1) (List.take pos data.data)⟩ : String) ++ "]\x7d") with
      | error e =>
        dsimp only
        exact ⟨rfl, by simp, Or.inr ⟨rfl, rfl, by simp⟩⟩
      | ok j =>
        dsimp only
        cases hkc : jsonKnownFilesCount j with
        | none =>
          dsimp only
          exact ⟨rfl, by simp, Or.inr ⟨rfl, rfl, by simp⟩⟩
        | some n =>
          dsimp only
          exact ⟨rfl, by simp,
            Or.inl ⟨n, rfl, rfl, by simp, i, j, rfl, hi, hpj, hkc⟩⟩
    · rw [if_neg hi]
      exact ⟨rfl, by simp, Or.inr ⟨rfl, rfl, by simp⟩⟩



/-- C2 witness: the amended theorem applied to a concrete truncated
snapshot; the backup is written under the timestamp-suffixed path. -/
theorem claim_C2_witness :
    (loadStateModel (.ok corruptFlat) 5).backupWritten
      = some (statePath ++ ".corrupted." ++ toString 5) :=
  (claim_C2_loadstate_recovery corruptFlat 5 50 rfl).1



/-- C2 counterexample to the claim as stated: on this corrupt snapshot the
recovery the claim describes — re-parsing the prefix up to the last
structurally complete record before the parse error — would recover 1
record (`specTruncationRecovery`), but the code's "\x7d," heuristic cuts
inside the incomplete record, its re-parse fails, and loadState falls back
to the empty snapshot instead. -/
theorem claim_C2_counterexample :
    parseJson corruptNested = .error 179 ∧
    specTruncationRecovery corruptNested 179 = some 1 ∧
    (loadStateModel (.ok corruptNested) 1700000000000).outcome = LoadOutcome.fellBackEmpty :=
  ⟨rfl, rfl, rfl⟩











/-- C6: the merge route never changes the persisted registry — in every
branch, including the success path, the final `saveState` writes back the
snapshot `loadState` just re-read, so the staged removals and the new
merged record are lost.  At the concrete failing input (two known on-disk
image records) the route reports success, the sources are retired on disk
under the `_delete_` prefix, the merged PDF exists with the first source's
timestamps — but the persisted registry still holds both source records and
lacks the merged one, contradicting the claim that the source entries are
removed and exactly one new record is added. -/
theorem claim_C6_merge_registry_lost :
    (∀ (svc : ServiceState) (fs : MergeFs) (fileIds : List String) (mid now : String),
        (mergeFilesPost svc fs fileIds mid now).svc.persisted = svc.persisted) ∧
    mergeRespOk mergeOutC6.response = true ∧
    mergeOutC6.svc.persisted = regC6 ∧
    getFileById mergeOutC6.svc.persisted "m1" = none ∧
    (getFileById mergeOutC6.svc.persisted "a").isSome = true ∧
    (getFileById mergeOutC6.svc.persisted "b").isSome = true ∧
    mergeOutC6.fs.exists_ "/d/_delete_a.png" = true ∧
    mergeOutC6.fs.exists_ "/d/a.png" = false ∧
    mergeOutC6.fs.exists_ "/d/a.pdf" = true ∧
    mergeOutC6.fs.times "/d/a.pdf" = some (11, 22) := by
  refine ⟨?_, rfl, rfl, rfl, rfl, rfl, rfl, rfl, rfl, rfl⟩
  intro svc fs fileIds mid now
  unfold mergeFilesPost
  dsimp only
  repeat' split
  all_goals rfl

end Bonnetjes
